import Mathlib

/-
Verification of the export-cyberark-recordings tool.

This file is a shallow embedding, in Lean 4, of the core logic of the
repository: the PVWA data model (recordings.go), the month-range query
builder, the pagination engine and the auth-token exchange (api.go), the
streaming copy loop and the resource handling of DownloadRecordings
(api.go), and the top-level driver (main.go).  Side effects (HTTP, the
filesystem) are modelled by explicit response values supplied by a
"server"/"world" argument; machine integers are modelled as Int, byte
buffers as List Nat.
-/

set_option maxRecDepth 100000

/- ------------------------------------------------------------------
   Data model: recordings.go
------------------------------------------------------------------ -/

/-- Mirrors the Go struct RecordingFile (recordings.go). -/
structure RecordingFile where
  FileName : String
  RecordingType : Int
  LastReviewBy : String
  LastReviewDate : Int
  FileSize : Int
  CompressedFileSize : Int
  Format : String

/-- Mirrors the Go struct Recording (recordings.go).  The field
RecordedActivities holds arbitrary JSON values in Go (a `[]interface\x7b\x7d`);
its elements are opaque to this program, modelled here as strings. -/
structure Recording where
  SessionID : String
  SessionGuid : String
  SafeName : String
  FileName : String
  Start : Int
  End : Int
  Duration : Int
  User : String
  RemoteMachine : String
  AccountUsername : String
  AccountPlatformID : String
  AccountAddress : String
  RecordedActivities : List String
  ConnectionComponentID : String
  Client : String
  RiskScore : Float
  Severity : String
  RecordingFiles : List RecordingFile
  VideoSize : Int
  TextSize : Int
  DetailsUrl : String

/-- Mirrors the Go struct SessionRecordings (recordings.go). -/
structure SessionRecordings where
  Recordings : List Recording
  Total : Int

/- ------------------------------------------------------------------
   Model of the Go standard time package (package time), UTC only.

   GetRecordingsByMonth calls time.Date, Time.AddDate, Time.Add and
   Time.Unix.  The model below reproduces the documented behaviour of
   those functions for the proleptic Gregorian calendar on timestamps
   at or after the Unix epoch (all dates this program manipulates lie
   in 2023-2025).  time.Date normalizes out-of-range month and day
   values: a month outside [1,12] carries into the year and a day
   outside the month length carries into adjacent months (so day 0 is
   the last day of the previous month).
------------------------------------------------------------------ -/

def isLeap (y : Nat) : Bool :=
  y % 4 == 0 && (y % 100 != 0 || y % 400 == 0)

def daysInYear (y : Nat) : Nat :=
  if isLeap y then 366 else 365

def daysInMonth (y m : Nat) : Nat :=
  if m = 2 then (if isLeap y then 29 else 28)
  else if m = 4 ∨ m = 6 ∨ m = 9 ∨ m = 11 then 30
  else 31

/-- Days from 1970-01-01 to the first day of year `y` (for y ≥ 1970). -/
def daysToYear (y : Nat) : Nat :=
  (List.range (y - 1970)).foldl (fun acc i => acc + daysInYear (1970 + i)) 0

/-- Days from the first day of year `y` to the first day of month `m` of
year `y` (for m in [1,12]). -/
def daysBeforeMonth (y m : Nat) : Nat :=
  (List.range (m - 1)).foldl (fun acc i => acc + daysInMonth y (i + 1)) 0

/-- The month normalization performed by Go time.Date: bring `month` into
[1,12], carrying whole years.  Mirrors the helper `norm` of the time
package (floor division by 12 on `month - 1`). -/
def goNormYM (year month : Int) : Int × Int :=
  let m0 := month - 1
  (year + m0.ediv 12, m0.emod 12 + 1)

/-- Days since 1970-01-01 of the civil date produced by Go
`time.Date(year, month, day, 0, 0, 0, 0, time.UTC)`: the month is
normalized into the year, then `day - 1` days are added to the first day
of that month (so day 0 lands on the last day of the previous month).
Valid for results at or after the epoch. -/
def goDateDays (year month day : Int) : Int :=
  let ym := goNormYM year month
  (daysToYear ym.1.toNat : Int) + (daysBeforeMonth ym.1.toNat ym.2.toNat : Int) + day - 1

/-- Unix epoch seconds of Go `time.Date(year, month, day, 0,0,0,0, UTC)`. -/
def goDateUnix (year month day : Int) : Int :=
  86400 * goDateDays year month day

/-- Splits a day count (days since 1970-01-01) into (year, day-of-year),
scanning forward from 1970.  Fuel 1000 covers all dates this program
manipulates. -/
def splitYearAux : Nat → Nat → Nat → Nat × Nat
  | 0, y, n => (y, n)
  | fuel + 1, y, n =>
    if n < daysInYear y then (y, n) else splitYearAux fuel (y + 1) (n - daysInYear y)

/-- Splits a day-of-year into (month, day-of-month counted from 0). -/
def splitMonthAux (y : Nat) : Nat → Nat → Nat → Nat × Nat
  | 0, m, n => (m, n)
  | fuel + 1, m, n =>
    if n < daysInMonth y m then (m, n) else splitMonthAux y fuel (m + 1) (n - daysInMonth y m)

/-- Civil date (year, month, day) of a day count since 1970-01-01; the
inverse of `goDateDays` on normalized dates, mirroring Go Time.Date(). -/
def civilOfDays (n : Nat) : Nat × Nat × Nat :=
  let yn := splitYearAux 1000 1970 n
  let md := splitMonthAux yn.1 12 1 yn.2
  (yn.1, md.1, md.2 + 1)

/-- Go `t.AddDate(0, months, 0)` on a Unix timestamp `t`: decompose into
civil date plus time of day, add to the month field, renormalize via
time.Date. -/
def goAddDateMonths (t : Int) (months : Int) : Int :=
  let days := t.ediv 86400
  let rem := t.emod 86400
  let c := civilOfDays days.toNat
  goDateUnix (c.1 : Int) ((c.2.1 : Int) + months) (c.2.2 : Int) + rem

/- ------------------------------------------------------------------
   GetRecordingsByMonth (api.go): the month-range query builder.

     from := time.Date(2024, time.Month(month), 0, 0, 0, 0, 0, time.UTC)
     to   := from.AddDate(0, 1, 0).Add(-time.Second)
------------------------------------------------------------------ -/

/-- The `fromtime` bound (epoch seconds) computed by GetRecordingsByMonth:
`time.Date(2024, month, 0, ...).Unix()`.  Note the day argument is 0. -/
def byMonthFrom (month : Int) : Int := goDateUnix 2024 month 0

/-- The `totime` bound (epoch seconds) computed by GetRecordingsByMonth:
`from.AddDate(0, 1, 0).Add(-time.Second).Unix()`. -/
def byMonthTo (month : Int) : Int := goAddDateMonths (byMonthFrom month) 1 - 1

/-- The start of calendar month `month` of 2024 (UTC) in epoch seconds,
as the spec words describe the `fromtime` bound
("the epoch-second timestamp of the start of calendar month m of the
fixed reference year 2024").  Stated from the spec, for comparison with
`byMonthFrom`, which is stated from the code. -/
def specMonthStartUnix (month : Int) : Int := goDateUnix 2024 month 1

/-- One second before the start of the month following `month` in 2024
(UTC), as the spec words describe the `totime` bound.  Stated from the
spec, for comparison with `byMonthTo`. -/
def specMonthEndUnix (month : Int) : Int := goDateUnix 2024 (month + 1) 1 - 1

/- ------------------------------------------------------------------
   GetRecordings (api.go): the pagination engine.

   Go maps are modelled as association lists with lookup semantics;
   copying the caller map and overwriting its "offset" entry (lines
   138-142 of api.go) is `setParam queryParams "offset" (toString off)`.
   The HTTP GET of one page is modelled by a `server` function from the
   request (its numeric offset, plus the full query-parameter map the
   code sends) to a transport error or a decoded SessionRecordings.
   The unbounded `for` loop is modelled with explicit fuel: `none`
   means the fuel ran out, i.e. the loop has not terminated within
   `fuel` iterations.  `RunResult` additionally records, as ghost data,
   the requests issued, which exit of the loop fired, the final offset
   and the length of the final page.
------------------------------------------------------------------ -/

/-- A Go map[string]string, as an association list. -/
abbrev Params := List (String × String)

def lookupParam : Params → String → Option String
  | [], _ => none
  | (k, v) :: rest, key => if k = key then some v else lookupParam rest key

/-- m[key] = val on a Go map: overwrite the binding if present, add it
otherwise. -/
def setParam : Params → String → String → Params
  | [], key, val => [(key, val)]
  | (k, v) :: rest, key, val =>
    if k = key then (k, val) :: rest else (k, v) :: setParam rest key val

/-- The per-request page-size ceiling of the PVWA API (api.go line 129). -/
def maxResultsPerPage : Nat := 1000

/-- How the pagination loop of GetRecordings ended. -/
inductive StopReason
  | serverError
  | shortPage
  | safetyBound
deriving DecidableEq

/-- One run of GetRecordings: the value the Go function returns, plus
ghost instrumentation (requests issued, which exit fired, the offset at
exit, and the record count of the final page). -/
structure RunResult where
  result : Except String SessionRecordings
  requests : List Params
  stop : StopReason
  finalOffset : Int
  lastPageLen : Nat

/-- The pagination loop of GetRecordings (api.go lines 136-176), with
explicit fuel.  Each iteration copies the caller parameters, overwrites
"offset", issues the request, appends the page, overwrites the
accumulated Total, and stops if the page is shorter than
maxResultsPerPage or, after advancing the offset, if the offset has
reached the last reported Total. -/
def getRecordingsLoop (server : Int → Params → Except String SessionRecordings)
    (queryParams : Params) :
    Nat → Int → List Recording → Int → List Params → Option RunResult
  | 0, _, _, _, _ => none
  | fuel + 1, offset, acc, _total, reqs =>
    let currentParams := setParam queryParams "offset" (toString offset)
    let reqs2 := reqs ++ [currentParams]
    match server offset currentParams with
    | .error e =>
      some ⟨.error ("could not retrieve recordings at offset " ++ toString offset ++ ": " ++ e),
            reqs2, .serverError, offset, 0⟩
    | .ok page =>
      let acc2 := acc ++ page.Recordings
      if page.Recordings.length < maxResultsPerPage then
        some ⟨.ok ⟨acc2, page.Total⟩, reqs2, .shortPage, offset, page.Recordings.length⟩
      else
        let offset2 := offset + (maxResultsPerPage : Int)
        if offset2 ≥ page.Total then
          some ⟨.ok ⟨acc2, page.Total⟩, reqs2, .safetyBound, offset2, page.Recordings.length⟩
        else
          getRecordingsLoop server queryParams fuel offset2 acc2 page.Total reqs2

/-- GetRecordings: run the pagination loop from offset 0 with an empty
accumulator. -/
def getRecordings (server : Int → Params → Except String SessionRecordings)
    (queryParams : Params) (fuel : Nat) : Option RunResult :=
  getRecordingsLoop server queryParams fuel 0 [] 0 []

/-- The Go loop terminates for this server and these parameters: some
finite fuel suffices. -/
def TerminatesOn (server : Int → Params → Except String SessionRecordings)
    (queryParams : Params) : Prop :=
  ∃ fuel, (getRecordings server queryParams fuel).isSome = true

/- Concrete servers used to settle the pagination claims. -/

/-- A recording that is empty except for its numbered SessionID; the
payload fields are irrelevant to the pagination engine. -/
def mkRec (n : Nat) : Recording :=
  ⟨toString n, "", "", "", 0, 0, 0, "", "", "", "", "", [], "", "", 0, "", [], 0, 0, ""⟩

/-- `count` consecutively numbered recordings starting at `start`. -/
def recsFrom (start count : Nat) : List Recording :=
  (List.range count).map (fun i => mkRec (start + i))

/-- Query parameters shared by the concrete test servers. -/
def qp0 : Params := [("sort", "name"), ("order", "asc")]

/-- A server holding 2400 records: pages of sizes 1000, 1000 and 400 at
offsets 0, 1000 and 2000, each reporting Total = 2400. -/
def server2400 : Int → Params → Except String SessionRecordings := fun off _ =>
  if off = 0 then .ok ⟨recsFrom 0 1000, 2400⟩
  else if off = 1000 then .ok ⟨recsFrom 1000 1000, 2400⟩
  else if off = 2000 then .ok ⟨recsFrom 2000 400, 2400⟩
  else .error "unexpected offset"

/-- A server that always returns a full page of 1000 records while
reporting Total = 50. -/
def server50 : Int → Params → Except String SessionRecordings := fun _ _ =>
  .ok ⟨recsFrom 0 1000, 50⟩

/-- An adversarial server that always returns a full page of 1000
records and reports a Total that grows with the offset, so that the
safety bound is never reached. -/
def serverGrow : Int → Params → Except String SessionRecordings := fun off _ =>
  .ok ⟨recsFrom 0 1000, off + 2000⟩

/-- A server whose single page is short (400 records) but reports
Total = 9999, inconsistent with the records it delivers. -/
def serverLying : Int → Params → Except String SessionRecordings := fun off _ =>
  if off = 0 then .ok ⟨recsFrom 0 400, 9999⟩ else .error "unexpected offset"

/-- The run produced by `getRecordings serverLying qp0 5`, written out. -/
def srLying : SessionRecordings := ⟨([] : List Recording) ++ recsFrom 0 400, 9999⟩

def runLying : RunResult :=
  ⟨.ok srLying, ([] : List Params) ++ [setParam qp0 "offset" (toString (0 : Int))],
   .shortPage, 0, (recsFrom 0 400).length⟩

/- ------------------------------------------------------------------
   GetAuthToken (api.go lines 231-245): the credential exchange.

   The POST of the credentials is modelled by its outcome: a transport
   error (resty returns err != nil) or a completed HTTP response with a
   status code and a body.  The Go code inspects only the body; it
   never reads the status code.
------------------------------------------------------------------ -/

/-- A completed HTTP exchange as seen by GetAuthToken. -/
structure HttpResp where
  statusCode : Int
  body : String

/-- The client state GetAuthToken updates (the pvwaClient fields it
touches). -/
structure PvwaClient where
  BaseURL : String
  Username : String
  AuthToken : String
deriving DecidableEq

/-- Go `strings.Trim(s, "\"")`: remove all leading and all trailing
double-quote characters. -/
def goTrimQuotes (s : String) : String :=
  let l := s.toList.dropWhile (fun c => c == '"')
  String.mk ((l.reverse.dropWhile (fun c => c == '"')).reverse)

/-- GetAuthToken: a transport error is wrapped and returned; any
completed exchange, whatever its status code, has its body
quote-trimmed and stored as the auth token. -/
def getAuthToken (st : PvwaClient) (resp : Except String HttpResp) :
    Except String PvwaClient :=
  match resp with
  | .error e => .error ("error obtaining authorization token: " ++ e)
  | .ok r => .ok { st with AuthToken := goTrimQuotes r.body }

/-- A client state before authentication. -/
def st0 : PvwaClient := ⟨"https://pvwa.example.com", "svc-session-checker", ""⟩

/- ------------------------------------------------------------------
   DownloadRecordings (api.go lines 38-113): resource handling.

   For claim C7 only the open/close events of the output files and of
   the response streams matter, so each recording is reduced to the
   outcomes the outside world hands the loop body: whether os.Create
   succeeds, whether the POST succeeds, the status code, whether a
   response body is present, and the outcome of the chunked copy.
   The Go `defer` statements sit inside the `for` loop, so the
   deferred Close calls accumulate on the function call frame and run,
   last-in first-out, when DownloadRecordings returns - on any of its
   return paths.  `ddLoop` threads that defer stack explicitly and
   flushes it into the event trace at every return.

   The request is made with SetDoNotParseResponse(true), so once the
   POST completes the response body stream - if the response carries
   one - is already open and left unconsumed: its open event happens
   at request completion, before the status check.  On the
   statusCode != 200 path (api.go lines 70-72) the function returns
   before rawBody is bound and before `defer rawBody.Close()` runs, so
   that open stream is never closed.
------------------------------------------------------------------ -/

/-- File/stream events of one run of DownloadRecordings, tagged with
the index of the recording they belong to. -/
inductive DlEv
  | openFile (i : Nat)
  | closeFile (i : Nat)
  | openStream (i : Nat)
  | closeStream (i : Nat)
deriving DecidableEq

/-- The recording index an event belongs to. -/
def evIdx : DlEv → Nat
  | .openFile i => i
  | .closeFile i => i
  | .openStream i => i
  | .closeStream i => i

/-- Outcomes the world supplies for one iteration of the download
loop. -/
structure RecBehavior where
  createOk : Bool
  requestOk : Bool
  statusCode : Int
  hasBody : Bool
  copyResult : Except String Nat

/-- The stream-open events a completed POST contributes: when the
response carries a body, that body stream is open from the moment the
request completes (SetDoNotParseResponse leaves it unparsed). -/
def streamOpens (b : RecBehavior) (idx : Nat) : List DlEv :=
  if b.hasBody then [DlEv.openStream idx] else []

/-- The body of the `for _, recording := range sessions.Recordings`
loop of DownloadRecordings, one RecBehavior per recording, returning
the Go result together with the chronological event trace.  `defers`
is the stack of deferred Close calls accumulated so far; every return
path flushes it (head first: Go runs defers last-in first-out).
On the statusCode != 200 return path the code has not yet bound
rawBody nor deferred rawBody.Close(), so the stream opened by the
completed request is flushed with no matching close event: it leaks. -/
def ddLoop : List RecBehavior → Nat → List DlEv → Except String Unit × List DlEv
  | [], _, defers => (.ok (), defers)
  | b :: rest, idx, defers =>
    if b.createOk = false then (.error "error creating output file", defers)
    else
      let defers1 := DlEv.closeFile idx :: defers
      if b.requestOk = false then (.error "error making request", DlEv.openFile idx :: defers1)
      else if b.statusCode ≠ 200 then
        (.error "unexpected status code", DlEv.openFile idx :: (streamOpens b idx ++ defers1))
      else if b.hasBody = false then (.error "no response body received", DlEv.openFile idx :: defers1)
      else
        let defers2 := DlEv.closeStream idx :: defers1
        match b.copyResult with
        | .error e => (.error e, DlEv.openFile idx :: DlEv.openStream idx :: defers2)
        | .ok _ =>
          let r := ddLoop rest (idx + 1) defers2
          (r.1, DlEv.openFile idx :: DlEv.openStream idx :: r.2)

/-- DownloadRecordings: create the output directory, then run the loop
with an empty defer stack. -/
def downloadRecordingsRun (mkdirOk : Bool) (bs : List RecBehavior) :
    Except String Unit × List DlEv :=
  if mkdirOk = false then (.error "error creating output directory", [])
  else ddLoop bs 0 []

/-- A recording whose download succeeds end to end. -/
def okBehavior : RecBehavior := ⟨true, true, 200, true, .ok 1⟩

/-- A recording whose play request completes with status 404 and a
response body: the path on which the stream is leaked. -/
def leakBehavior : RecBehavior := ⟨true, true, 404, true, .ok 0⟩

/-- Position of the first occurrence of `e` in a trace (the length of
the trace when absent). -/
def posOf (e : DlEv) : List DlEv → Nat
  | [] => 0
  | x :: rest => if x = e then 0 else posOf e rest + 1

/- ------------------------------------------------------------------
   The chunked copy loop of DownloadRecordings (api.go lines 81-104).

   rawBody.Read fills a fixed 32 KiB buffer; the loop writes the n > 0
   bytes read, then breaks on io.EOF, or fails on any other read error
   or on a write error.  A response body is modelled as the sequence of
   Read outcomes: `chunks` are the reads that return (n, nil), and
   `ending` is the final read, which returns either io.EOF or another
   error, in both cases possibly alongside final bytes (exhausting
   `chunks` with an empty-data `ending` models a final (0, io.EOF)).
   Write outcomes are a predicate on the index of the write call.
------------------------------------------------------------------ -/

/-- The buffer size of the copy loop: `make([]byte, 32*1024)`. -/
def bufSize : Nat := 32 * 1024

/-- The final Read call of a response body. -/
inductive ReadEnd
  | eof (data : List Nat)
  | fail (data : List Nat) (msg : String)

/-- A response body, as the sequence of outcomes its Read calls
produce. -/
structure BodyStream where
  chunks : List (List Nat)
  ending : ReadEnd

/-- The data carried by the final Read. -/
def endData : ReadEnd → List Nat
  | .eof d => d
  | .fail d _ => d

/-- Concatenation of a list of chunks. -/
def flatList : List (List Nat) → List Nat
  | [] => []
  | c :: rest => c ++ flatList rest

/-- The bytes of the body: every chunk in order, including the bytes
delivered together with the final EOF or error. -/
def bodyBytes (b : BodyStream) : List Nat :=
  flatList b.chunks ++ endData b.ending

/-- Number of Write calls a chunk list causes (only n > 0 reads are
written). -/
def writesIn (chunks : List (List Nat)) : Nat :=
  (chunks.filter (fun c => c.length ≠ 0)).length

/-- Number of Write calls a whole body causes. -/
def numWrites (b : BodyStream) : Nat :=
  writesIn b.chunks + (if (endData b.ending).length = 0 then 0 else 1)

/-- A body is well formed when no single Read returns more bytes than
the 32 KiB buffer can hold. -/
def wfBody (b : BodyStream) : Prop :=
  (∀ c ∈ b.chunks, c.length ≤ bufSize) ∧ (endData b.ending).length ≤ bufSize

/-- The copy loop over the plain (error-free) reads: `wOk w` tells
whether the w-th Write call succeeds.  Returns the file content, the
totalBytes counter and the next write index, or a write error. -/
def copyPlain (wOk : Nat → Bool) :
    List (List Nat) → List Nat → Nat → Nat → Except String (List Nat × Nat × Nat)
  | [], acc, total, w => .ok (acc, total, w)
  | c :: rest, acc, total, w =>
    if c.length = 0 then copyPlain wOk rest acc total w
    else if wOk w then copyPlain wOk rest (acc ++ c) (total + c.length) (w + 1)
    else .error "error writing to file"

/-- The whole copy loop of DownloadRecordings: run the plain reads,
then the final Read.  Bytes delivered together with io.EOF or with a
read error are written first (the loop handles n > 0 before checking
err); then io.EOF breaks cleanly and any other read error is fatal. -/
def copyBody (wOk : Nat → Bool) (b : BodyStream) : Except String (List Nat × Nat) :=
  match copyPlain wOk b.chunks [] 0 0 with
  | .error e => .error e
  | .ok (acc, total, w) =>
    match b.ending with
    | .eof d =>
      if d.length = 0 then .ok (acc, total)
      else if wOk w then .ok (acc ++ d, total + d.length)
      else .error "error writing to file"
    | .fail d msg =>
      if d.length = 0 then .error ("error reading response: " ++ msg)
      else if wOk w then .error ("error reading response: " ++ msg)
      else .error "error writing to file"

/-- A concrete body: 6 bytes over three plain reads (one empty), with
two final bytes delivered together with io.EOF. -/
def bW : BodyStream := ⟨[[1, 2, 3], [4], []], .eof [5, 6]⟩

/- ------------------------------------------------------------------
   The top-level driver (main.go): per-month processing.

   After flag parsing and client construction, main loops over the
   selected months: a GetRecordingsByMonth error is fatal
   (log.Fatal, exit status 1), but the error results of
   sessions.SaveToJSON and pvwaClient.DownloadRecordings are
   discarded.  The world supplies the outcome of the three per-month
   operations; the model returns the process exit status and the trace
   of operations performed.
------------------------------------------------------------------ -/

/-- Outcomes of the three per-month operations. -/
structure MonthOps where
  listResult : Except String SessionRecordings
  saveResult : Except String Unit
  downloadResult : Except String Unit

/-- Steps the driver performs. -/
inductive StepEv
  | getMonth (m : Int)
  | save (m : Int)
  | download (m : Int)
deriving DecidableEq

/-- The month loop of main: log.Fatal on a listing error; SaveToJSON
and DownloadRecordings are called with their results discarded. -/
def runMonths (ops : Int → MonthOps) : List Int → Nat × List StepEv
  | [] => (0, [])
  | m :: rest =>
    match (ops m).listResult with
    | .error _ => (1, [StepEv.getMonth m])
    | .ok _ =>
      let r := runMonths ops rest
      (r.1, StepEv.getMonth m :: StepEv.save m :: StepEv.download m :: r.2)

/-- main: NewPVWAConfig first (log.Fatal on error), then the month
loop. -/
def mainRun (initResult : Except String Unit) (ops : Int → MonthOps)
    (months : List Int) : Nat × List StepEv :=
  match initResult with
  | .error _ => (1, [])
  | .ok _ => runMonths ops months

/-- A world in which everything succeeds except SaveToJSON for month 5,
which fails. -/
def opsBadSave : Int → MonthOps := fun m =>
  if m = 5 then ⟨.ok ⟨[], 0⟩, .error "error creating directory: disk full", .ok ()⟩
  else ⟨.ok ⟨[], 0⟩, .ok (), .ok ()⟩

/- ------------------------------------------------------------------
   Theorems for claims C1 and C2.
------------------------------------------------------------------ -/

/-- C1: the claim states that for 1 ≤ m < 12 the `totime` bound of month
m equals the `fromtime` bound of month m+1 minus one.  The code violates
this: because GetRecordingsByMonth passes day 0 to time.Date, at m = 2
the `totime` bound is 1709337599 (2024-03-01 23:59:59 UTC) while the
`fromtime` bound of month 3 minus one is 1709164799 (2024-02-28 23:59:59
UTC), so consecutive month queries overlap. -/
theorem monthBounds_not_contiguous :
    byMonthTo 2 = 1709337599 ∧
    byMonthFrom 3 - 1 = 1709164799 ∧
    byMonthTo 2 ≠ byMonthFrom 3 - 1 := by
  refine ⟨by decide, by decide, by decide⟩

/-- C2: the claim states that for m in [1,12] the `fromtime` bound is the
start of calendar month m of 2024 and the `totime` bound is one second
before the start of the following month.  The code violates this at
m = 1: it computes fromtime = 1703980800 (2023-12-31 00:00:00 UTC, the
last day of the previous month, because time.Date receives day 0) where
the claim requires 1704067200 (2024-01-01 00:00:00 UTC), and
totime = 1706659199 (2024-01-30 23:59:59 UTC) where the claim requires
1706745599 (2024-01-31 23:59:59 UTC). -/
theorem monthBounds_wrong_month_start :
    byMonthFrom 1 = 1703980800 ∧ specMonthStartUnix 1 = 1704067200 ∧
    byMonthFrom 1 ≠ specMonthStartUnix 1 ∧
    byMonthTo 1 = 1706659199 ∧ specMonthEndUnix 1 = 1706745599 ∧
    byMonthTo 1 ≠ specMonthEndUnix 1 := by
  refine ⟨by decide, by decide, by decide, by decide, by decide, by decide⟩

/- ------------------------------------------------------------------
   Theorems for claim C4 (pagination over pages 1000 / 1000 / 400).
------------------------------------------------------------------ -/

theorem recsFrom_length (start count : Nat) : (recsFrom start count).length = count := by
  simp [recsFrom]

/-- C4: against a server returning pages of sizes 1000, 1000 and 400 at
offsets 0, 1000 and 2000, each reporting Total = 2400, GetRecordings
returns the three pages concatenated in order (2400 records, Total
2400), issues exactly the three requests at offsets 0, 1000 and 2000,
and stops at the short-page check after the 400-record page. -/
theorem getRecordings_pages_2400 :
    getRecordings server2400 qp0 10 =
      some ⟨.ok ⟨([] : List Recording) ++ recsFrom 0 1000 ++ recsFrom 1000 1000
                    ++ recsFrom 2000 400, 2400⟩,
            ([] : List Params) ++ [setParam qp0 "offset" (toString (0 : Int))]
              ++ [setParam qp0 "offset" (toString (1000 : Int))]
              ++ [setParam qp0 "offset" (toString (2000 : Int))],
            .shortPage, 2000, (recsFrom 2000 400).length⟩ ∧
    (([] : List Recording) ++ recsFrom 0 1000 ++ recsFrom 1000 1000
        ++ recsFrom 2000 400).length = 2400 ∧
    (([] : List Params) ++ [setParam qp0 "offset" (toString (0 : Int))]
        ++ [setParam qp0 "offset" (toString (1000 : Int))]
        ++ [setParam qp0 "offset" (toString (2000 : Int))]).length = 3 := by
  refine ⟨rfl, ?_, by decide⟩
  simp [recsFrom_length]

/- ------------------------------------------------------------------
   Theorems for claim C5 (termination of the pagination loop).
------------------------------------------------------------------ -/

/-- Against the growing-Total server the loop never stops: no amount of
fuel makes it return. -/
theorem serverGrow_loop_none (fuel : Nat) : ∀ offset acc total reqs,
    getRecordingsLoop serverGrow qp0 fuel offset acc total reqs = none := by
  induction fuel with
  | zero => intro offset acc total reqs; rfl
  | succ f ih =>
    intro offset acc total reqs
    simp only [getRecordingsLoop, serverGrow]
    rw [if_neg (by rw [recsFrom_length]; simp [maxResultsPerPage]),
        if_neg (by simp only [maxResultsPerPage]; push_cast; omega)]
    exact ih _ _ _ _

/-- C5 counterexample: the claim quantifies over every server response
sequence, but against a server that always returns a full 1000-record
page while reporting a Total that keeps growing with the offset
(Total = offset + 2000), neither termination check ever fires and the
pagination loop of GetRecordings runs forever. -/
theorem getRecordings_divergence_growing_total : ¬ TerminatesOn serverGrow qp0 := by
  rintro ⟨fuel, h⟩
  have hnone := serverGrow_loop_none fuel 0 [] 0 []
  simp only [getRecordings] at h
  rw [hnone] at h
  simp at h

/-- Auxiliary bound: if every successful response of the server reports
a Total of at most T, then fuel exceeding T / 1000 + 1 pages suffices
for the loop to stop. -/
theorem loop_isSome_of_total_le
    (server : Int → Params → Except String SessionRecordings)
    (qp : Params) (T : Int)
    (hT : ∀ off ps page, server off ps = Except.ok page → page.Total ≤ T) :
    ∀ fuel : Nat, ∀ offset acc total reqs, 1 ≤ fuel →
      T ≤ 1000 * (fuel : Int) + offset →
      (getRecordingsLoop server qp fuel offset acc total reqs).isSome = true := by
  intro fuel
  induction fuel with
  | zero => intro offset acc total reqs h1 _; omega
  | succ f ih =>
    intro offset acc total reqs _ hbound
    simp only [getRecordingsLoop]
    split
    next e heq => rfl
    next page heq =>
      split
      next hlen => rfl
      next hlen =>
        split
        next hoff => rfl
        next hoff =>
          have hTb := hT _ _ _ heq
          simp only [maxResultsPerPage] at hoff ⊢
          push_cast at hbound hoff ⊢
          have hf : 1 ≤ f := by omega
          exact ih _ _ _ _ hf (by omega)

/-- C5 (amended): for every server whose successful responses all
report a Total bounded by some fixed T, the pagination loop of
GetRecordings terminates (a transport error also stops it); in
particular a server always reporting Total = 50 while returning full
1000-record pages is stopped by the offset-reached-Total safety check.
Servers whose reported Total grows without bound across pages escape
this and the loop need not terminate. -/
theorem getRecordings_terminates_of_bounded_total
    (server : Int → Params → Except String SessionRecordings)
    (qp : Params) (T : Int)
    (hT : ∀ off ps page, server off ps = Except.ok page → page.Total ≤ T) :
    TerminatesOn server qp := by
  refine ⟨T.toNat / 1000 + 2, ?_⟩
  refine loop_isSome_of_total_le server qp T hT _ 0 [] 0 [] (by omega) ?_
  push_cast
  omega

/-- Witness for C5: the Total = 50 server of the claim satisfies the
bound, so the loop terminates on it. -/
theorem getRecordings_terminates_witness :
    (∀ off ps page, server50 off ps = Except.ok page → page.Total ≤ 50) ∧
    TerminatesOn server50 qp0 := by
  have hb : ∀ off ps page, server50 off ps = Except.ok page → page.Total ≤ 50 := by
    intro off ps page h
    simp only [server50] at h
    injection h with h2
    subst h2
    simp
  exact ⟨hb, getRecordings_terminates_of_bounded_total server50 qp0 50 hb⟩

/- ------------------------------------------------------------------
   Theorems for claim C8 (result-set invariant on success).
------------------------------------------------------------------ -/

/-- On success, the loop stopped either at the short-page check (the
final page had fewer than maxResultsPerPage records) or at the safety
check (the advanced offset reached the Total reported by the final
page, which is the Total of the returned set). -/
theorem getRecordingsLoop_success_stop
    (server : Int → Params → Except String SessionRecordings) (qp : Params) :
    ∀ fuel offset acc total reqs run sr,
      getRecordingsLoop server qp fuel offset acc total reqs = some run →
      run.result = Except.ok sr →
      (run.stop = StopReason.shortPage ∧ run.lastPageLen < maxResultsPerPage) ∨
      (run.stop = StopReason.safetyBound ∧ sr.Total ≤ run.finalOffset) := by
  intro fuel
  induction fuel with
  | zero =>
    intro offset acc total reqs run sr h
    exact absurd h (by simp [getRecordingsLoop])
  | succ f ih =>
    intro offset acc total reqs run sr hrun hok
    simp only [getRecordingsLoop] at hrun
    split at hrun
    next e heq =>
      injection hrun with h2
      subst h2
      simp at hok
    next page heq =>
      split at hrun
      next hlen =>
        injection hrun with h2
        subst h2
        exact Or.inl ⟨rfl, hlen⟩
      next hlen =>
        split at hrun
        next hoff =>
          injection hrun with h2
          subst h2
          injection hok with h3
          subst h3
          exact Or.inr ⟨rfl, hoff⟩
        next hoff =>
          exact ih _ _ _ _ _ _ hrun hok

/-- C8 (amended): whenever GetRecordings returns successfully, either
the length of the returned Recordings equals the returned Total, or the
final page was strictly shorter than the 1000-record ceiling (the
short-page check ended the run, possibly with a server-reported Total
inconsistent with the records actually delivered), or accumulation was
cut short by the offset-reached-Total safety check. -/
theorem getRecordings_success_invariant
    (server : Int → Params → Except String SessionRecordings) (qp : Params)
    (fuel : Nat) (run : RunResult) (sr : SessionRecordings)
    (hrun : getRecordings server qp fuel = some run)
    (hok : run.result = Except.ok sr) :
    ((sr.Recordings.length : Int) = sr.Total) ∨
    (run.stop = StopReason.shortPage ∧ run.lastPageLen < maxResultsPerPage) ∨
    (run.stop = StopReason.safetyBound ∧ sr.Total ≤ run.finalOffset) := by
  rcases getRecordingsLoop_success_stop server qp fuel 0 [] 0 [] run sr hrun hok with h | h
  · exact Or.inr (Or.inl h)
  · exact Or.inr (Or.inr h)

/-- Witness for C8: the invariant instantiated at the lying server. -/
theorem getRecordings_success_invariant_witness :
    getRecordings serverLying qp0 5 = some runLying ∧
    runLying.result = Except.ok srLying ∧
    (((srLying.Recordings.length : Int) = srLying.Total) ∨
     (runLying.stop = StopReason.shortPage ∧ runLying.lastPageLen < maxResultsPerPage) ∨
     (runLying.stop = StopReason.safetyBound ∧ srLying.Total ≤ runLying.finalOffset)) := by
  exact ⟨rfl, rfl, getRecordings_success_invariant serverLying qp0 5 runLying srLying rfl rfl⟩

/-- C8 counterexample: the claim as stated allows only
"length = Total" or "cut short by the offset ≥ Total safety check".
Against a server whose single page holds 400 records but reports
Total = 9999, GetRecordings succeeds with 400 ≠ 9999 records while the
run ended at the short-page check, not at the safety check. -/
theorem getRecordings_lying_total_breaks_invariant :
    getRecordings serverLying qp0 5 = some runLying ∧
    runLying.result = Except.ok srLying ∧
    ((srLying.Recordings.length : Int) ≠ srLying.Total) ∧
    runLying.stop ≠ StopReason.safetyBound := by
  refine ⟨rfl, rfl, ?_, by decide⟩
  rw [show srLying.Recordings.length = 400 by simp [srLying, recsFrom_length]]
  decide

/- ------------------------------------------------------------------
   Theorems for claim C10 (the caller map is copied, never mutated).
------------------------------------------------------------------ -/

/-- Writing one key of a Go map leaves every other key unchanged. -/
theorem lookupParam_setParam_ne (ps : Params) (key val k : String) (hk : k ≠ key) :
    lookupParam (setParam ps key val) k = lookupParam ps k := by
  induction ps with
  | nil =>
    simp only [setParam, lookupParam]
    rw [if_neg (fun h => hk h.symm)]
  | cons kv rest ih =>
    obtain ⟨k1, v1⟩ := kv
    simp only [setParam]
    by_cases h1 : k1 = key
    · subst h1
      rw [if_pos rfl]
      simp only [lookupParam]
      rw [if_neg (fun h => hk h.symm), if_neg (fun h => hk h.symm)]
    · rw [if_neg h1]
      simp only [lookupParam]
      by_cases h2 : k1 = k
      · rw [if_pos h2, if_pos h2]
      · rw [if_neg h2, if_neg h2]
        exact ih

/-- Every request the pagination loop sends is the caller map with only
its "offset" entry overwritten. -/
theorem getRecordingsLoop_requests_shape
    (server : Int → Params → Except String SessionRecordings) (qp : Params) :
    ∀ fuel offset acc total reqs run,
      (∀ p ∈ reqs, ∃ off : Int, p = setParam qp "offset" (toString off)) →
      getRecordingsLoop server qp fuel offset acc total reqs = some run →
      ∀ p ∈ run.requests, ∃ off : Int, p = setParam qp "offset" (toString off) := by
  intro fuel
  induction fuel with
  | zero =>
    intro offset acc total reqs run _ h
    exact absurd h (by simp [getRecordingsLoop])
  | succ f ih =>
    intro offset acc total reqs run hreqs hrun
    have hreqs2 : ∀ p ∈ reqs ++ [setParam qp "offset" (toString offset)],
        ∃ off : Int, p = setParam qp "offset" (toString off) := by
      intro p hp
      rcases List.mem_append.mp hp with hp | hp
      · exact hreqs p hp
      · exact ⟨offset, List.mem_singleton.mp hp⟩
    simp only [getRecordingsLoop] at hrun
    split at hrun
    next e heq =>
      injection hrun with h2
      subst h2
      exact hreqs2
    next page heq =>
      split at hrun
      next hlen =>
        injection hrun with h2
        subst h2
        exact hreqs2
      next hlen =>
        split at hrun
        next hoff =>
          injection hrun with h2
          subst h2
          exact hreqs2
        next hoff =>
          exact ih _ _ _ _ _ hreqs2 hrun

/-- C10: GetRecordings never mutates the caller map.  Every page
request is issued from a fresh copy of the caller parameters whose only
changed entry is "offset": each sent map equals
`setParam queryParams "offset" off` for the offset of that page, and
agrees with the caller map on every other key.  The caller map itself
is only ever read (api.go lines 138-142 write to the fresh copy
currentParams), so it holds the same bindings after the call. -/
theorem getRecordings_requests_fresh_copies
    (server : Int → Params → Except String SessionRecordings) (qp : Params)
    (fuel : Nat) (run : RunResult)
    (hrun : getRecordings server qp fuel = some run) :
    ∀ p ∈ run.requests,
      (∃ off : Int, p = setParam qp "offset" (toString off)) ∧
      ∀ k, k ≠ "offset" → lookupParam p k = lookupParam qp k := by
  intro p hp
  have hshape := getRecordingsLoop_requests_shape server qp fuel 0 [] 0 []
    run (by simp) hrun p hp
  refine ⟨hshape, ?_⟩
  rcases hshape with ⟨off, rfl⟩
  intro k hk
  exact lookupParam_setParam_ne qp "offset" (toString off) k hk

/-- Witness for C10: the single request issued against the lying server
is the caller map plus an "offset" entry, agreeing with it elsewhere. -/
theorem getRecordings_requests_fresh_copies_witness :
    getRecordings serverLying qp0 5 = some runLying ∧
    setParam qp0 "offset" (toString (0 : Int)) ∈ runLying.requests ∧
    ((∃ off : Int, setParam qp0 "offset" (toString (0 : Int)) =
        setParam qp0 "offset" (toString off)) ∧
     ∀ k, k ≠ "offset" →
       lookupParam (setParam qp0 "offset" (toString (0 : Int))) k = lookupParam qp0 k) := by
  have hmem : setParam qp0 "offset" (toString (0 : Int)) ∈ runLying.requests := by decide
  exact ⟨rfl, hmem,
    getRecordings_requests_fresh_copies serverLying qp0 5 runLying rfl _ hmem⟩

/- ------------------------------------------------------------------
   Theorems for claim C6 (GetAuthToken).
------------------------------------------------------------------ -/

/-- C6 counterexample: the claim states that a non-success HTTP
response is surfaced as an immediate fatal error.  The code never
inspects the status code: handed a completed exchange with status 401,
GetAuthToken succeeds and stores the quote-stripped response body as
the token. -/
theorem getAuthToken_accepts_non_success :
    getAuthToken st0 (Except.ok ⟨401, "\"unauthorized\""⟩) =
      Except.ok ⟨"https://pvwa.example.com", "svc-session-checker", "unauthorized"⟩ ∧
    (401 : Int) ≠ 200 := by
  exact ⟨rfl, by decide⟩

/-- C6 (amended): GetAuthToken surfaces a transport failure as an
immediate fatal error; on any completed HTTP exchange, success or not,
it stores the response body with enclosing quote characters stripped
as the auth token and reports success. -/
theorem getAuthToken_behavior (st : PvwaClient) :
    (∀ e, getAuthToken st (Except.error e) =
      Except.error ("error obtaining authorization token: " ++ e)) ∧
    (∀ r, getAuthToken st (Except.ok r) =
      Except.ok { st with AuthToken := goTrimQuotes r.body }) := by
  exact ⟨fun _ => rfl, fun _ => rfl⟩

/- ------------------------------------------------------------------
   Theorem for claim C3 (the driver and error fatality).
------------------------------------------------------------------ -/

/-- C3: the claim states that an error from any component operation
(month listing, metadata export or recording download) terminates the
process with a non-zero status and that no error is silently dropped.
The code contradicts this: with months = [5] and SaveToJSON failing for
month 5, main discards the error, still calls DownloadRecordings, and
the process ends with exit status 0. -/
theorem mainRun_ignores_save_download_errors :
    (opsBadSave 5).saveResult = Except.error "error creating directory: disk full" ∧
    mainRun (Except.ok ()) opsBadSave [5] =
      (0, [StepEv.getMonth 5, StepEv.save 5, StepEv.download 5]) := by
  exact ⟨rfl, rfl⟩

/- ------------------------------------------------------------------
   Theorems for claim C7 (resource release in DownloadRecordings).
------------------------------------------------------------------ -/

/-- Deferred closes are flushed at return: running the loop with a
preloaded defer stack appends that stack to the trace of the same loop
run with an empty stack. -/
theorem ddLoop_defers_append (bs : List RecBehavior) : ∀ idx defers,
    (ddLoop bs idx defers).2 = (ddLoop bs idx []).2 ++ defers := by
  induction bs with
  | nil => intro idx defers; simp [ddLoop]
  | cons b rest ih =>
    intro idx defers
    simp only [ddLoop]
    by_cases hc : b.createOk = false
    · rw [if_pos hc, if_pos hc]; simp
    · rw [if_neg hc, if_neg hc]
      by_cases hr : b.requestOk = false
      · rw [if_pos hr, if_pos hr]; simp
      · rw [if_neg hr, if_neg hr]
        by_cases hst : b.statusCode ≠ 200
        · rw [if_pos hst, if_pos hst]; simp
        · rw [if_neg hst, if_neg hst]
          by_cases hb : b.hasBody = false
          · rw [if_pos hb, if_pos hb]; simp
          · rw [if_neg hb, if_neg hb]
            rcases hcopy : b.copyResult with e | n
            · simp [hcopy]
            · simp only [hcopy]
              rw [ih (idx + 1) (DlEv.closeStream idx :: DlEv.closeFile idx :: defers),
                  ih (idx + 1) [DlEv.closeStream idx, DlEv.closeFile idx]]
              simp

/-- Every event the loop emits from recording index `idx` onward
belongs to a recording of index at least `idx`. -/
theorem ddLoop_events_ge (bs : List RecBehavior) : ∀ idx, ∀ e ∈ (ddLoop bs idx []).2,
    idx ≤ evIdx e := by
  induction bs with
  | nil => intro idx e he; simp [ddLoop] at he
  | cons b rest ih =>
    intro idx e he
    simp only [ddLoop] at he
    by_cases hc : b.createOk = false
    · rw [if_pos hc] at he; simp at he
    · rw [if_neg hc] at he
      by_cases hr : b.requestOk = false
      · rw [if_pos hr] at he
        simp at he
        rcases he with rfl | rfl <;> simp [evIdx]
      · rw [if_neg hr] at he
        by_cases hst : b.statusCode ≠ 200
        · rw [if_pos hst] at he
          by_cases hb2 : b.hasBody = true
          · simp [streamOpens, hb2] at he
            rcases he with rfl | rfl | rfl <;> simp [evIdx]
          · simp [streamOpens, hb2] at he
            rcases he with rfl | rfl <;> simp [evIdx]
        · rw [if_neg hst] at he
          by_cases hb : b.hasBody = false
          · rw [if_pos hb] at he
            simp at he
            rcases he with rfl | rfl <;> simp [evIdx]
          · rw [if_neg hb] at he
            rcases hcopy : b.copyResult with er | n
            · rw [hcopy] at he
              simp at he
              rcases he with rfl | rfl | rfl | rfl <;> simp [evIdx]
            · rw [hcopy] at he
              simp only [List.mem_cons] at he
              rcases he with rfl | rfl | he
              · simp [evIdx]
              · simp [evIdx]
              · rw [ddLoop_defers_append rest (idx + 1)
                    [DlEv.closeStream idx, DlEv.closeFile idx]] at he
                rcases List.mem_append.mp he with he | he
                · exact Nat.le_of_succ_le (ih (idx + 1) e he)
                · simp at he
                  rcases he with rfl | rfl <;> simp [evIdx]

/-- Events of recordings below the starting index never occur. -/
theorem ddLoop_count_zero (bs : List RecBehavior) (idx : Nat) (e : DlEv)
    (he : evIdx e < idx) : (ddLoop bs idx []).2.count e = 0 := by
  rw [List.count_eq_zero]
  intro hmem
  exact absurd (ddLoop_events_ge bs idx e hmem) (by omega)

/-- In the trace of the download loop, every recording has at most one
file-open and one stream-open event, file closes match file opens
exactly, and stream closes match stream opens except for a recording
whose play response completed with a non-200 status and a body - on
that return path the open stream is flushed with no close: it is
leaked. -/
theorem ddLoop_counts (bs : List RecBehavior) : ∀ idx i,
    ((ddLoop bs idx []).2.count (DlEv.openFile i) ≤ 1) ∧
    ((ddLoop bs idx []).2.count (DlEv.closeFile i) =
      (ddLoop bs idx []).2.count (DlEv.openFile i)) ∧
    ((ddLoop bs idx []).2.count (DlEv.openStream i) ≤ 1) ∧
    (((ddLoop bs idx []).2.count (DlEv.closeStream i) =
       (ddLoop bs idx []).2.count (DlEv.openStream i)) ∨
     ((ddLoop bs idx []).2.count (DlEv.openStream i) = 1 ∧
      (ddLoop bs idx []).2.count (DlEv.closeStream i) = 0 ∧
      ∃ b, idx ≤ i ∧ bs[i - idx]? = some b ∧ b.statusCode ≠ 200 ∧ b.hasBody = true)) := by
  induction bs with
  | nil => intro idx i; simp [ddLoop]
  | cons b rest ih =>
    intro idx i
    simp only [ddLoop]
    by_cases hc : b.createOk = false
    · rw [if_pos hc]; simp
    · rw [if_neg hc]
      by_cases hr : b.requestOk = false
      · rw [if_pos hr]
        by_cases hi : idx = i <;>
          simp [List.count_cons, List.count_nil, hi]
      · rw [if_neg hr]
        by_cases hst : b.statusCode ≠ 200
        · rw [if_pos hst]
          by_cases hb2 : b.hasBody = true
          · by_cases hi : idx = i
            · subst hi
              refine ⟨?_, ?_, ?_, Or.inr ⟨?_, ?_, b, le_refl idx, ?_, hst, hb2⟩⟩ <;>
                simp [streamOpens, hb2, List.count_cons, List.count_append, List.count_nil]
            · refine ⟨?_, ?_, ?_, Or.inl ?_⟩ <;>
                simp [streamOpens, hb2, List.count_cons, List.count_append,
                  List.count_nil, hi]
          · by_cases hi : idx = i <;>
              simp [streamOpens, hb2, List.count_cons, List.count_append,
                List.count_nil, hi]
        · rw [if_neg hst]
          by_cases hb : b.hasBody = false
          · rw [if_pos hb]
            by_cases hi : idx = i <;>
              simp [List.count_cons, List.count_nil, hi]
          · rw [if_neg hb]
            rcases hcopy : b.copyResult with er | n
            · by_cases hi : idx = i <;>
                simp [List.count_cons, List.count_nil, hi]
            · simp only []
              rw [ddLoop_defers_append rest (idx + 1)
                  [DlEv.closeStream idx, DlEv.closeFile idx]]
              by_cases hi : idx = i
              · subst hi
                have h1 := ddLoop_count_zero rest (idx + 1) (DlEv.openFile idx) (by simp [evIdx])
                have h2 := ddLoop_count_zero rest (idx + 1) (DlEv.closeFile idx) (by simp [evIdx])
                have h3 := ddLoop_count_zero rest (idx + 1) (DlEv.openStream idx) (by simp [evIdx])
                have h4 := ddLoop_count_zero rest (idx + 1) (DlEv.closeStream idx) (by simp [evIdx])
                refine ⟨?_, ?_, ?_, Or.inl ?_⟩ <;>
                  simp [List.count_cons, List.count_append, h1, h2, h3, h4]
              · have hrec := ih (idx + 1) i
                rcases hrec.2.2.2 with hbal | ⟨h1s, h0s, b2, hle, hget, hst2, hb2⟩
                · refine ⟨?_, ?_, ?_, Or.inl ?_⟩ <;>
                    simp [List.count_cons, List.count_append, hi, hrec.1, hrec.2.1,
                      hrec.2.2.1, hbal]
                · have hidx : i - idx = (i - (idx + 1)) + 1 := by omega
                  refine ⟨?_, ?_, ?_, Or.inr ⟨?_, ?_, b2, by omega, ?_, hst2, hb2⟩⟩
                  · simp [List.count_cons, List.count_append, hi, hrec.1]
                  · simp [List.count_cons, List.count_append, hi, hrec.2.1]
                  · simp [List.count_cons, List.count_append, hi, hrec.2.2.1]
                  · simp [List.count_cons, List.count_append, hi, h1s]
                  · simp [List.count_cons, List.count_append, hi, h0s]
                  · rw [hidx, List.getElem?_cons_succ]
                    exact hget

/-- C7 (amended): in every run of DownloadRecordings, each output file
handle that was opened is closed exactly once, and each response
stream is opened at most once and closed at most once: stream closes
match stream opens except when the play request for that recording
completed with a non-200 status and a body, in which case the function
returns before binding rawBody or deferring its Close and the open
stream is never closed (it leaks).  All closes are the deferred ones
that run, last-in first-out, when DownloadRecordings returns - not
before the loop moves on to the next recording. -/
theorem downloadRecordings_handles_balanced (mkdirOk : Bool) (bs : List RecBehavior) (i : Nat) :
    ((downloadRecordingsRun mkdirOk bs).2.count (DlEv.openFile i) ≤ 1) ∧
    ((downloadRecordingsRun mkdirOk bs).2.count (DlEv.closeFile i) =
      (downloadRecordingsRun mkdirOk bs).2.count (DlEv.openFile i)) ∧
    ((downloadRecordingsRun mkdirOk bs).2.count (DlEv.openStream i) ≤ 1) ∧
    (((downloadRecordingsRun mkdirOk bs).2.count (DlEv.closeStream i) =
       (downloadRecordingsRun mkdirOk bs).2.count (DlEv.openStream i)) ∨
     ((downloadRecordingsRun mkdirOk bs).2.count (DlEv.openStream i) = 1 ∧
      (downloadRecordingsRun mkdirOk bs).2.count (DlEv.closeStream i) = 0 ∧
      ∃ b, bs[i]? = some b ∧ b.statusCode ≠ 200 ∧ b.hasBody = true)) := by
  by_cases hm : mkdirOk = false
  · simp [downloadRecordingsRun, hm]
  · simp only [downloadRecordingsRun, if_neg hm]
    have h := ddLoop_counts bs 0 i
    rcases h.2.2.2 with hbal | ⟨h1, h0, b, hle, hget, hst, hb⟩
    · exact ⟨h.1, h.2.1, h.2.2.1, Or.inl hbal⟩
    · refine ⟨h.1, h.2.1, h.2.2.1, Or.inr ⟨h1, h0, b, ?_, hst, hb⟩⟩
      simpa using hget

/-- C7 counterexample: the claim states each handle is released
exactly once, on every exit path, before the loop moves on to the next
recording.  Two violations on concrete runs: (1) with two recordings
that both succeed, the file and stream of recording 0 are opened, then
recording 1 is opened, and only afterwards (at function return,
last-in first-out) are the handles of recording 0 closed, so the open
of recording 1 precedes both closes of recording 0; (2) with one
recording whose play response completes with status 404 and a body,
the trace holds a stream-open event for recording 0 but no
stream-close at all - that exit path releases the response stream zero
times, not once. -/
theorem downloadRecordings_close_deferred_to_exit :
    (downloadRecordingsRun true [okBehavior, okBehavior]).2 =
      [DlEv.openFile 0, DlEv.openStream 0, DlEv.openFile 1, DlEv.openStream 1,
       DlEv.closeStream 1, DlEv.closeFile 1, DlEv.closeStream 0, DlEv.closeFile 0] ∧
    posOf (DlEv.openFile 1) (downloadRecordingsRun true [okBehavior, okBehavior]).2 <
      posOf (DlEv.closeFile 0) (downloadRecordingsRun true [okBehavior, okBehavior]).2 ∧
    posOf (DlEv.openFile 1) (downloadRecordingsRun true [okBehavior, okBehavior]).2 <
      posOf (DlEv.closeStream 0) (downloadRecordingsRun true [okBehavior, okBehavior]).2 ∧
    (downloadRecordingsRun true [leakBehavior]).2 =
      [DlEv.openFile 0, DlEv.openStream 0, DlEv.closeFile 0] ∧
    (downloadRecordingsRun true [leakBehavior]).2.count (DlEv.openStream 0) = 1 ∧
    (downloadRecordingsRun true [leakBehavior]).2.count (DlEv.closeStream 0) = 0 := by
  refine ⟨rfl, by decide, by decide, rfl, by decide, by decide⟩

/- ------------------------------------------------------------------
   Theorems for claim C9 (the chunked copy loop).
------------------------------------------------------------------ -/

theorem writesIn_nil : writesIn [] = 0 := rfl

/-- One write per nonempty chunk. -/
theorem writesIn_cons (c : List Nat) (rest : List (List Nat)) :
    writesIn (c :: rest) = writesIn rest + (if c.length = 0 then 0 else 1) := by
  by_cases hc : c.length = 0
  · have hce : c = [] := List.length_eq_zero.mp hc
    subst hce
    simp [writesIn]
  · have hce : c ≠ [] := fun h => hc (by simp [h])
    simp [writesIn, List.filter_cons, hce, hc]

/-- When every write succeeds, the plain reads are copied verbatim:
the file gains exactly the concatenated chunks, the byte counter
advances by their total length and the write index by the number of
nonempty chunks. -/
theorem copyPlain_all_ok (wOk : Nat → Bool) (hw : ∀ i, wOk i = true) :
    ∀ chunks acc total w,
      copyPlain wOk chunks acc total w =
        Except.ok (acc ++ flatList chunks, total + (flatList chunks).length,
          w + writesIn chunks) := by
  intro chunks
  induction chunks with
  | nil => intro acc total w; simp [copyPlain, flatList, writesIn]
  | cons c rest ih =>
    intro acc total w
    simp only [copyPlain]
    by_cases hc : c.length = 0
    · rw [if_pos hc, ih]
      have hce : c = [] := List.length_eq_zero.mp hc
      subst hce
      simp [flatList, writesIn_cons]
    · rw [if_neg hc, if_pos (hw w), ih]
      simp only [flatList, writesIn_cons, if_neg hc, Except.ok.injEq, Prod.mk.injEq]
      refine ⟨by simp [List.append_assoc], by simp; omega, by omega⟩

/-- The write index returned by a successful copyPlain run counts one
write per nonempty chunk. -/
theorem copyPlain_ok_w (wOk : Nat → Bool) : ∀ chunks acc total w a t w2,
    copyPlain wOk chunks acc total w = Except.ok (a, t, w2) → w2 = w + writesIn chunks := by
  intro chunks
  induction chunks with
  | nil =>
    intro acc total w a t w2 h
    simp only [copyPlain, Except.ok.injEq, Prod.mk.injEq] at h
    obtain ⟨h1, h2, h3⟩ := h
    rw [writesIn_nil]
    omega
  | cons c rest ih =>
    intro acc total w a t w2 h
    simp only [copyPlain] at h
    rw [writesIn_cons]
    by_cases hc : c.length = 0
    · rw [if_pos hc] at h
      have h2 := ih _ _ _ _ _ _ h
      rw [if_pos hc]
      omega
    · rw [if_neg hc] at h
      rw [if_neg hc]
      by_cases hwk : wOk w = true
      · rw [if_pos hwk] at h
        have h2 := ih _ _ _ _ _ _ h
        omega
      · rw [if_neg hwk] at h
        exact absurd h (by simp)

/-- If some write in the range of writes a chunk list causes fails,
copyPlain returns a write error. -/
theorem copyPlain_error_of_bad_write (wOk : Nat → Bool) : ∀ chunks acc total w i,
    w ≤ i → i < w + writesIn chunks → wOk i = false →
    ∃ e, copyPlain wOk chunks acc total w = Except.error e := by
  intro chunks
  induction chunks with
  | nil =>
    intro acc total w i h1 h2 h3
    rw [writesIn_nil] at h2
    omega
  | cons c rest ih =>
    intro acc total w i h1 h2 h3
    rw [writesIn_cons] at h2
    simp only [copyPlain]
    by_cases hc : c.length = 0
    · rw [if_pos hc]
      rw [if_pos hc] at h2
      exact ih _ _ _ i h1 (by omega) h3
    · rw [if_neg hc]
      rw [if_neg hc] at h2
      by_cases hwk : wOk w = true
      · rw [if_pos hwk]
        have hne : i ≠ w := by
          intro hiw
          rw [hiw, hwk] at h3
          cases h3
        exact ih _ _ _ i (by omega) (by omega) h3
      · rw [if_neg hwk]
        exact ⟨_, rfl⟩

/-- C9: however the bytes of a response body are split across reads
(no read exceeding the 32 KiB buffer), the copy loop of
DownloadRecordings writes exactly the bytes of the body, in order,
with the byte counter equal to the byte count, stopping cleanly at
io.EOF; a mid-stream read error or any failing write makes it return
an error. -/
theorem copyBody_faithful (wOk : Nat → Bool) (b : BodyStream) (hwf : wfBody b) :
    ((∀ i, wOk i = true) →
      (∀ d, b.ending = ReadEnd.eof d →
        copyBody wOk b = Except.ok (bodyBytes b, (bodyBytes b).length)) ∧
      (∀ d msg, b.ending = ReadEnd.fail d msg →
        copyBody wOk b = Except.error ("error reading response: " ++ msg))) ∧
    ((∃ i, i < numWrites b ∧ wOk i = false) →
      ∃ e, copyBody wOk b = Except.error e) := by
  constructor
  · intro hw
    constructor
    · intro d hend
      simp only [copyBody, copyPlain_all_ok wOk hw, hend]
      by_cases hd : d.length = 0
      · have hde : d = [] := List.length_eq_zero.mp hd
        subst hde
        simp [bodyBytes, endData, hend]
      · rw [if_neg hd, if_pos (hw (0 + writesIn b.chunks))]
        simp [bodyBytes, endData, hend]
    · intro d msg hend
      simp only [copyBody, copyPlain_all_ok wOk hw, hend]
      by_cases hd : d.length = 0
      · rw [if_pos hd]
      · rw [if_neg hd, if_pos (hw (0 + writesIn b.chunks))]
  · rintro ⟨i, hi, hbad⟩
    by_cases hlt : i < writesIn b.chunks
    · rcases copyPlain_error_of_bad_write wOk b.chunks [] 0 0 i (by omega) (by omega) hbad
        with ⟨e, he⟩
      refine ⟨e, ?_⟩
      simp only [copyBody, he]
    · have hdz : (endData b.ending).length ≠ 0 := by
        intro h
        simp only [numWrites] at hi
        rw [if_pos h] at hi
        omega
      have hiw : i = writesIn b.chunks := by
        simp only [numWrites] at hi
        rw [if_neg hdz] at hi
        omega
      rcases hres : copyPlain wOk b.chunks [] 0 0 with e | r
      · refine ⟨e, ?_⟩
        simp only [copyBody, hres]
      · obtain ⟨a, t, w2⟩ := r
        have hw2 : w2 = writesIn b.chunks := by
          have := copyPlain_ok_w wOk b.chunks [] 0 0 a t w2 hres
          omega
        have hwkn : ¬ (wOk w2 = true) := by
          rw [hw2, ← hiw, hbad]
          simp
        rcases hend : b.ending with d | ⟨d, msg⟩
        · have hdn : d.length ≠ 0 := by
            rw [hend] at hdz
            simpa [endData] using hdz
          refine ⟨"error writing to file", ?_⟩
          simp only [copyBody, hres, hend]
          rw [if_neg hdn, if_neg hwkn]
        · by_cases hdn : d.length = 0
          · refine ⟨"error reading response: " ++ msg, ?_⟩
            simp only [copyBody, hres, hend]
            rw [if_pos hdn]
          · refine ⟨"error writing to file", ?_⟩
            simp only [copyBody, hres, hend]
            rw [if_neg hdn, if_neg hwkn]

/-- Witness for C9: a concrete six-byte body split over uneven reads,
with two bytes arriving together with io.EOF, is copied byte for
byte. -/
theorem copyBody_faithful_witness :
    wfBody bW ∧ copyBody (fun _ => true) bW = Except.ok ([1, 2, 3, 4, 5, 6], 6) := by
  have hwf : wfBody bW := ⟨by decide, by decide⟩
  have h := (copyBody_faithful (fun _ => true) bW hwf).1 (fun i => rfl)
  have h2 := h.1 [5, 6] rfl
  refine ⟨hwf, ?_⟩
  rw [h2]
  rfl
